import Mathlib

/-!
Shallow embedding of the ranking engine of the IR_HITS repository
(`backend/algorithms/pagerank.py`, `backend/algorithms/hits.py`, and the
comparator core of `backend/main.py`), together with proofs of the frozen
claims about it.

Numeric model: the Python code computes with IEEE floats; the embedding uses
exact arithmetic instead, `ℚ` for PageRank (whose operations are all rational)
and `ℝ` for HITS (whose L2 normalization takes a square root).  Python dicts
keyed by node labels are modelled as association lists in insertion order,
which coincides with the dict whenever the labels are unique (the data-model
invariant of the repository).
-/

namespace IRHits

/-- Index of a label in the node list, as produced by the Python dict
comprehension `{node: idx for idx, node in enumerate(nodes)}` (later
occurrences overwrite earlier ones, so this returns the index of the last
occurrence; for unique labels it is the unique index). -/
def nodeIdx : List String → String → Option ℕ
  | [], _ => none
  | x :: xs, s =>
      match nodeIdx xs s with
      | some i => some (i + 1)
      | none => if x = s then some 0 else none

/-- Conversion of one labelled edge to an index pair: defined only when both
the source and the target label are known. -/
def edgeIdx (nodes : List String) (e : String × String) : Option (ℕ × ℕ) :=
  match nodeIdx nodes e.1, nodeIdx nodes e.2 with
  | some s, some t => some (s, t)
  | _, _ => none

/-- The edge list converted to index pairs, dropping edges whose source or
target label is unknown (`pagerank.py` lines 88-93, `hits.py` lines 60-65). -/
def edgeIndices (nodes : List String) (edges : List (String × String)) : List (ℕ × ℕ) :=
  edges.filterMap (edgeIdx nodes)

/-- The label-keyed score mapping `{nodes[i]: v[i] for i in range(n)}`,
as an association list in insertion order. -/
def labelScores {α : Type} (v : ℕ → α) : List String → List (String × α)
  | [] => []
  | x :: xs => (x, v 0) :: labelScores (fun i => v (i + 1)) xs

/-- Insert a labelled score into a list sorted by descending score, after all
entries whose score is strictly greater and before all remaining ones: the
single step of a stable descending sort. -/
def insertDesc {α : Type} [LinearOrder α] (x : String × α) :
    List (String × α) → List (String × α)
  | [] => [x]
  | y :: ys => if x.2 < y.2 then y :: insertDesc x ys else x :: y :: ys

/-- Stable sort by descending score, modelling Python's stable
`sorted(items, key=lambda x: x[1], reverse=True)`. -/
def sortDesc {α : Type} [LinearOrder α] : List (String × α) → List (String × α)
  | [] => []
  | x :: xs => insertDesc x (sortDesc xs)

/-! ## PageRank (`backend/algorithms/pagerank.py`) -/

/-- The 0/1 adjacency matrix built in `build_transition_matrix`:
`M[target, source] = 1` for each index edge, so entry `(i, j)` is 1 iff the
edge list contains the pair `(j, i)` (repeated assignments collapse). -/
def adjMatrix (E : List (ℕ × ℕ)) (i j : ℕ) : ℚ :=
  if (j, i) ∈ E then 1 else 0

/-- Column sum `col_sums[j] = M.sum(axis=0)[j]`. -/
def colSum (n : ℕ) (E : List (ℕ × ℕ)) (j : ℕ) : ℚ :=
  ∑ i ∈ Finset.range n, adjMatrix E i j

/-- The column-normalized transition matrix of `build_transition_matrix`:
a zero column (dangling node) becomes the uniform column `1/n`, any other
column is divided by its sum. -/
def transitionMatrix (n : ℕ) (E : List (ℕ × ℕ)) (i j : ℕ) : ℚ :=
  if colSum n E j = 0 then 1 / n else adjMatrix E i j / colSum n E j

/-- One PageRank update
`R_new = damping_factor * (M' @ R) + (epsilon / n) * U` with
`epsilon = 1 - damping_factor` and `U` the all-ones vector. -/
def prStep (d : ℚ) (n : ℕ) (M : ℕ → ℕ → ℚ) (R : ℕ → ℚ) (i : ℕ) : ℚ :=
  d * (∑ j ∈ Finset.range n, M i j * R j) + (1 - d) / n

/-- The initial uniform vector `R = np.ones(n) / n`. -/
def prStart (n : ℕ) : ℕ → ℚ := fun _ => 1 / n

/-- The raw (never rescaled) iterate sequence of the PageRank loop. -/
def prIter (d : ℚ) (n : ℕ) (M : ℕ → ℕ → ℚ) : ℕ → ℕ → ℚ
  | 0 => prStart n
  | k + 1 => prStep d n M (prIter d n M k)

/-- The L1 convergence delta `np.sum(np.abs(R_new - R))` checked on loop pass
`k` (0-based), over the raw iterates. -/
def prDelta (d : ℚ) (n : ℕ) (M : ℕ → ℕ → ℚ) (k : ℕ) : ℚ :=
  ∑ i ∈ Finset.range n, |prIter d n M (k + 1) i - prIter d n M k i|

/-- The PageRank iteration loop of `calculate` (lines 107-125): run up to
`fuel` more passes from vector `R` with `iters` passes already performed,
breaking as soon as a pass's L1 delta falls below the threshold. -/
def prLoop (d θ : ℚ) (n : ℕ) (M : ℕ → ℕ → ℚ) :
    ℕ → (ℕ → ℚ) → ℕ → (ℕ → ℚ) × ℕ
  | 0, R, iters => (R, iters)
  | fuel + 1, R, iters =>
      if (∑ i ∈ Finset.range n, |prStep d n M R i - R i|) < θ then
        (prStep d n M R, iters + 1)
      else prLoop d θ n M fuel (prStep d n M R) (iters + 1)

/-- The pass count at which the PageRank loop stops, starting from pass `k`
with `fuel` passes remaining. -/
def prStopAux (d θ : ℚ) (n : ℕ) (M : ℕ → ℕ → ℚ) : ℕ → ℕ → ℕ
  | 0, k => k
  | fuel + 1, k =>
      if prDelta d n M k < θ then k + 1 else prStopAux d θ n M fuel (k + 1)

/-- The iteration count reported by the PageRank loop. -/
def prStop (d θ : ℚ) (n : ℕ) (M : ℕ → ℕ → ℚ) (maxIter : ℕ) : ℕ :=
  prStopAux d θ n M maxIter 0

/-- The result dictionary of `PageRank.calculate` (the fields the claims are
about; the echoed configuration fields and the history are omitted). -/
structure PageRankResult where
  node_scores : List (String × ℚ)
  top_nodes : List (String × ℚ)
  iterations : ℕ
  deriving DecidableEq

/-- `PageRank.calculate`.  When `n = 0` and the loop body runs at least once,
the Python code raises `ZeroDivisionError` at `(self.epsilon / n) * U`;
this is modelled as `none`.  Otherwise the loop result is rescaled once by its
total and packaged with the stable descending top-5 list. -/
def pagerankCalculate (d θ : ℚ) (maxIter : ℕ) (nodes : List String)
    (edges : List (String × String)) : Option PageRankResult :=
  let n := nodes.length
  let E := edgeIndices nodes edges
  let M := transitionMatrix n E
  if n = 0 ∧ 0 < maxIter then none
  else
    let p := prLoop d θ n M maxIter (prStart n) 0
    let total := ∑ j ∈ Finset.range n, p.1 j
    let scores := labelScores (fun i => p.1 i / total) nodes
    some ⟨scores, (sortDesc scores).take 5, p.2⟩

/-! ## HITS (`backend/algorithms/hits.py`) -/

/-- The authority update `new_authority[i] = Σ hub[j] for j in inlinks[i]`,
where `inlinks[i]` lists the sources of index edges targeting `i`, in edge
order and with multiplicity. -/
def authRaw (E : List (ℕ × ℕ)) (hub : ℕ → ℝ) (i : ℕ) : ℝ :=
  ((E.filter fun e => e.2 == i).map fun e => hub e.1).sum

/-- The hub update `new_hub[i] = Σ authority[j] for j in outlinks[i]`. -/
def hubRaw (E : List (ℕ × ℕ)) (auth : ℕ → ℝ) (i : ℕ) : ℝ :=
  ((E.filter fun e => e.1 == i).map fun e => auth e.2).sum

/-- Euclidean norm `np.linalg.norm` of the first `n` entries. -/
noncomputable def l2norm (n : ℕ) (v : ℕ → ℝ) : ℝ :=
  Real.sqrt (∑ i ∈ Finset.range n, v i ^ 2)

/-- The guarded L2 normalization: divide by the norm only when it is
positive, otherwise leave the vector unchanged (`if auth_norm > 0`). -/
noncomputable def normIf (n : ℕ) (v : ℕ → ℝ) : ℕ → ℝ :=
  if 0 < l2norm n v then fun i => v i / l2norm n v else v

/-- One synchronous HITS pass: both new vectors are computed from the
previous pass's pair `(authority, hub)` and then independently normalized. -/
noncomputable def hitsStep (n : ℕ) (E : List (ℕ × ℕ))
    (p : (ℕ → ℝ) × (ℕ → ℝ)) : (ℕ → ℝ) × (ℕ → ℝ) :=
  (normIf n (authRaw E p.2), normIf n (hubRaw E p.1))

/-- The initial all-ones pair `authority = hub = np.ones(n)`. -/
def hitsStart : (ℕ → ℝ) × (ℕ → ℝ) := (fun _ => 1, fun _ => 1)

/-- The iterate sequence of the HITS loop. -/
noncomputable def hitsIter (n : ℕ) (E : List (ℕ × ℕ)) :
    ℕ → (ℕ → ℝ) × (ℕ → ℝ)
  | 0 => hitsStart
  | k + 1 => hitsStep n E (hitsIter n E k)

/-- The pair of L1 convergence deltas `(auth_diff, hub_diff)` between two
states. -/
def hitsDelta (n : ℕ) (p q : (ℕ → ℝ) × (ℕ → ℝ)) : ℝ × ℝ :=
  (∑ i ∈ Finset.range n, |q.1 i - p.1 i|, ∑ i ∈ Finset.range n, |q.2 i - p.2 i|)

/-- The HITS iteration loop of `calculate` (lines 69-103): break as soon as
both deltas fall below the threshold. -/
noncomputable def hitsLoop (θ : ℝ) (n : ℕ) (E : List (ℕ × ℕ)) :
    ℕ → ((ℕ → ℝ) × (ℕ → ℝ)) → ℕ → ((ℕ → ℝ) × (ℕ → ℝ)) × ℕ
  | 0, p, iters => (p, iters)
  | fuel + 1, p, iters =>
      let q := hitsStep n E p
      if (hitsDelta n p q).1 < θ ∧ (hitsDelta n p q).2 < θ then (q, iters + 1)
      else hitsLoop θ n E fuel q (iters + 1)

/-- The HITS convergence test checked on loop pass `k` (0-based): both the
authority delta and the hub delta are below the threshold. -/
abbrev hitsConv (θ : ℝ) (n : ℕ) (E : List (ℕ × ℕ)) (k : ℕ) : Prop :=
  (hitsDelta n (hitsIter n E k) (hitsIter n E (k + 1))).1 < θ ∧
  (hitsDelta n (hitsIter n E k) (hitsIter n E (k + 1))).2 < θ

/-- The pass count at which the HITS loop stops, starting from pass `k` with
`fuel` passes remaining. -/
noncomputable def hitsStopAux (θ : ℝ) (n : ℕ) (E : List (ℕ × ℕ)) : ℕ → ℕ → ℕ
  | 0, k => k
  | fuel + 1, k =>
      if hitsConv θ n E k then k + 1
      else hitsStopAux θ n E fuel (k + 1)

/-- The iteration count reported by the HITS loop. -/
noncomputable def hitsStop (θ : ℝ) (n : ℕ) (E : List (ℕ × ℕ)) (maxIter : ℕ) : ℕ :=
  hitsStopAux θ n E maxIter 0

/-- The result dictionary of `HITS.calculate`. -/
structure HITSResult where
  authority_scores : List (String × ℝ)
  hub_scores : List (String × ℝ)
  top_authorities : List (String × ℝ)
  top_hubs : List (String × ℝ)
  iterations : ℕ

/-- `HITS.calculate`.  The float threshold is a decimal literal, modelled as a
rational cast into `ℝ` for the comparisons. -/
noncomputable def hitsCalculate (θ : ℚ) (maxIter : ℕ) (nodes : List String)
    (edges : List (String × String)) : HITSResult :=
  let n := nodes.length
  let E := edgeIndices nodes edges
  let r := hitsLoop (θ : ℝ) n E maxIter hitsStart 0
  let auths := labelScores r.1.1 nodes
  let hubs := labelScores r.1.2 nodes
  ⟨auths, hubs, (sortDesc auths).take 5, (sortDesc hubs).take 5, r.2⟩

/-! ## Comparator core (`backend/main.py`, `compare_algorithms`) -/

/-- The part of `compare_algorithms` up to and including the unguarded
indexing `top_nodes[0]`, `top_authorities[0]`, `top_hubs[0]` (lines 236-250).
`none` models an uncaught exception from the engines (PageRank's
`ZeroDivisionError`) or the comparator's `IndexError` on an empty top-list;
on success it returns the two overlap lists and the three top node labels. -/
noncomputable def compareCore (d θ : ℚ) (maxIter : ℕ) (nodes : List String)
    (edges : List (String × String)) :
    Option (List String × List String × String × String × String) :=
  match pagerankCalculate d θ maxIter nodes edges with
  | none => none
  | some pr =>
      let hr := hitsCalculate θ maxIter nodes edges
      let topPR := pr.top_nodes.map Prod.fst
      let topA := hr.top_authorities.map Prod.fst
      let topH := hr.top_hubs.map Prod.fst
      let overlapA := topPR.filter fun s => decide (s ∈ topA)
      let overlapH := topPR.filter fun s => decide (s ∈ topH)
      match pr.top_nodes.head?, hr.top_authorities.head?, hr.top_hubs.head? with
      | some tp, some ta, some th => some (overlapA, overlapH, tp.1, ta.1, th.1)
      | _, _, _ => none

/-! ## Basic lemmas on the graph index and the result packaging -/

lemma nodeIdx_eq_none_iff (nodes : List String) (s : String) :
    nodeIdx nodes s = none ↔ s ∉ nodes := by
  induction nodes with
  | nil => simp [nodeIdx]
  | cons x xs ih =>
      simp only [nodeIdx]
      cases h : nodeIdx xs s with
      | some i =>
          have hmem : s ∈ xs := by
            by_contra hs
            have h2 := ih.mpr hs
            rw [h] at h2
            exact Option.noConfusion h2
          simp [hmem]
      | none =>
          have hs : s ∉ xs := ih.mp h
          by_cases hx : x = s
          · simp [hx]
          · have hsx : s ≠ x := fun hsx => hx hsx.symm
            simp [hx, hs, hsx]

lemma nodeIdx_getElem (nodes : List String) (s : String) (i : ℕ)
    (h : nodeIdx nodes s = some i) : nodes[i]? = some s := by
  induction nodes generalizing i with
  | nil => simp [nodeIdx] at h
  | cons x xs ih =>
      simp only [nodeIdx] at h
      cases hx : nodeIdx xs s with
      | some j =>
          rw [hx] at h
          cases h
          simpa using ih j hx
      | none =>
          rw [hx] at h
          by_cases hxs : x = s
          · rw [if_pos hxs] at h
            cases h
            simp [hxs]
          · rw [if_neg hxs] at h
            exact Option.noConfusion h

lemma edgeIdx_eq_some (nodes : List String) (e : String × String) (p : ℕ × ℕ)
    (h : edgeIdx nodes e = some p) :
    nodeIdx nodes e.1 = some p.1 ∧ nodeIdx nodes e.2 = some p.2 := by
  unfold edgeIdx at h
  cases h1 : nodeIdx nodes e.1 with
  | none =>
      rw [h1] at h
      cases h2 : nodeIdx nodes e.2 <;> rw [h2] at h <;> exact Option.noConfusion h
  | some a =>
      cases h2 : nodeIdx nodes e.2 with
      | none => rw [h1, h2] at h; exact Option.noConfusion h
      | some b => rw [h1, h2] at h; cases h; exact ⟨by simp [h1], by simp [h2]⟩

lemma edgeIdx_eq_none_of (nodes : List String) (e : String × String)
    (hm : ¬(e.1 ∈ nodes ∧ e.2 ∈ nodes)) : edgeIdx nodes e = none := by
  unfold edgeIdx
  cases h1 : nodeIdx nodes e.1 with
  | none => rfl
  | some a =>
      have m1 : e.1 ∈ nodes := by
        by_contra hc
        rw [(nodeIdx_eq_none_iff nodes e.1).mpr hc] at h1
        exact Option.noConfusion h1
      cases h2 : nodeIdx nodes e.2 with
      | none => rfl
      | some b =>
          have m2 : e.2 ∈ nodes := by
            by_contra hc
            rw [(nodeIdx_eq_none_iff nodes e.2).mpr hc] at h2
            exact Option.noConfusion h2
          exact absurd ⟨m1, m2⟩ hm

lemma mem_edgeIndices (nodes : List String) (edges : List (String × String))
    (p : ℕ × ℕ) (h : p ∈ edgeIndices nodes edges) :
    ∃ e ∈ edges, nodeIdx nodes e.1 = some p.1 ∧ nodeIdx nodes e.2 = some p.2 := by
  unfold edgeIndices at h
  rcases List.mem_filterMap.mp h with ⟨e, he, hp⟩
  exact ⟨e, he, edgeIdx_eq_some _ _ _ hp⟩

lemma edgeIndices_filter (nodes : List String) (edges : List (String × String)) :
    edgeIndices nodes (edges.filter fun e => decide (e.1 ∈ nodes ∧ e.2 ∈ nodes)) =
      edgeIndices nodes edges := by
  induction edges with
  | nil => rfl
  | cons e es ih =>
      unfold edgeIndices at ih ⊢
      rw [List.filter_cons]
      by_cases hm : e.1 ∈ nodes ∧ e.2 ∈ nodes
      · rw [if_pos (by simpa using hm), List.filterMap_cons, List.filterMap_cons]
        cases he : edgeIdx nodes e with
        | none => simpa using ih
        | some p => simpa using ih
      · rw [if_neg (by simpa using hm), List.filterMap_cons,
          edgeIdx_eq_none_of nodes e hm]
        exact ih

lemma labelScores_map_fst {α : Type} (v : ℕ → α) (nodes : List String) :
    (labelScores v nodes).map Prod.fst = nodes := by
  induction nodes generalizing v with
  | nil => rfl
  | cons x xs ih => simp [labelScores, ih]

lemma mem_labelScores {α : Type} (v : ℕ → α) (nodes : List String) (x : String) (q : α) :
    (x, q) ∈ labelScores v nodes ↔ ∃ i, nodes[i]? = some x ∧ q = v i := by
  induction nodes generalizing v with
  | nil => simp [labelScores]
  | cons y ys ih =>
      simp only [labelScores, List.mem_cons, ih, Prod.mk.injEq]
      constructor
      · rintro (⟨h1, h2⟩ | ⟨i, h1, h2⟩)
        · exact ⟨0, by simp [h1.symm], h2⟩
        · exact ⟨i + 1, by simpa using h1, h2⟩
      · rintro ⟨i, h1, h2⟩
        cases i with
        | zero =>
            left
            simp only [List.getElem?_cons_zero, Option.some.injEq] at h1
            exact ⟨h1.symm, h2⟩
        | succ j =>
            right
            exact ⟨j, by simpa using h1, h2⟩

/-! ## The stable descending sort -/

lemma insertDesc_perm {α : Type} [LinearOrder α] (x : String × α) (l : List (String × α)) :
    List.Perm (insertDesc x l) (x :: l) := by
  induction l with
  | nil => exact List.Perm.refl _
  | cons y ys ih =>
      rw [insertDesc]
      by_cases h : x.2 < y.2
      · rw [if_pos h]
        exact (ih.cons y).trans (List.Perm.swap x y ys)
      · rw [if_neg h]

lemma sortDesc_perm {α : Type} [LinearOrder α] (l : List (String × α)) :
    List.Perm (sortDesc l) l := by
  induction l with
  | nil => exact List.Perm.refl _
  | cons x xs ih => exact (insertDesc_perm x (sortDesc xs)).trans (ih.cons x)

lemma insertDesc_pairwise {α : Type} [LinearOrder α] (x : String × α)
    (l : List (String × α)) (h : l.Pairwise (fun p q => q.2 ≤ p.2)) :
    (insertDesc x l).Pairwise (fun p q => q.2 ≤ p.2) := by
  induction l with
  | nil => simp [insertDesc]
  | cons y ys ih =>
      rw [insertDesc]
      rcases List.pairwise_cons.mp h with ⟨hy, hys⟩
      by_cases hxy : x.2 < y.2
      · rw [if_pos hxy]
        refine List.pairwise_cons.mpr ⟨?_, ih hys⟩
        intro z hz
        rcases List.mem_cons.mp ((insertDesc_perm x ys).mem_iff.mp hz) with rfl | hz3
        · exact le_of_lt hxy
        · exact hy z hz3
      · rw [if_neg hxy]
        push_neg at hxy
        refine List.pairwise_cons.mpr ⟨?_, h⟩
        intro z hz
        rcases List.mem_cons.mp hz with rfl | hz3
        · exact hxy
        · exact le_trans (hy z hz3) hxy

lemma sortDesc_pairwise {α : Type} [LinearOrder α] (l : List (String × α)) :
    (sortDesc l).Pairwise (fun p q => q.2 ≤ p.2) := by
  induction l with
  | nil => simp [sortDesc]
  | cons x xs ih => exact insertDesc_pairwise x _ ih

lemma insertDesc_filter_eq {α : Type} [LinearOrder α] (x : String × α)
    (l : List (String × α)) (c : α) (hx : x.2 = c) :
    (insertDesc x l).filter (fun p => decide (p.2 = c)) =
      x :: l.filter (fun p => decide (p.2 = c)) := by
  induction l with
  | nil => simp [insertDesc, hx]
  | cons y ys ih =>
      rw [insertDesc]
      by_cases hxy : x.2 < y.2
      · rw [if_pos hxy]
        have hy : ¬ y.2 = c := by
          intro hc
          rw [show y.2 = x.2 from hc.trans hx.symm] at hxy
          exact lt_irrefl _ hxy
        simp [List.filter_cons, hy, ih]
      · rw [if_neg hxy]
        simp [List.filter_cons, hx]

lemma insertDesc_filter_ne {α : Type} [LinearOrder α] (x : String × α)
    (l : List (String × α)) (c : α) (hx : ¬ x.2 = c) :
    (insertDesc x l).filter (fun p => decide (p.2 = c)) =
      l.filter (fun p => decide (p.2 = c)) := by
  induction l with
  | nil => simp [insertDesc, hx]
  | cons y ys ih =>
      rw [insertDesc]
      by_cases hxy : x.2 < y.2
      · rw [if_pos hxy]
        simp [List.filter_cons, ih]
      · rw [if_neg hxy]
        simp [List.filter_cons, hx]

lemma sortDesc_filter (α : Type) [LinearOrder α] (l : List (String × α)) (c : α) :
    (sortDesc l).filter (fun p => decide (p.2 = c)) =
      l.filter (fun p => decide (p.2 = c)) := by
  induction l with
  | nil => rfl
  | cons x xs ih =>
      rw [sortDesc]
      by_cases hx : x.2 = c
      · rw [insertDesc_filter_eq x _ c hx, ih, List.filter_cons]
        simp [hx]
      · rw [insertDesc_filter_ne x _ c hx, ih, List.filter_cons]
        simp [hx]

/-! ## PageRank: the transition matrix is column-stochastic -/

lemma adjMatrix_nonneg (E : List (ℕ × ℕ)) (i j : ℕ) : 0 ≤ adjMatrix E i j := by
  unfold adjMatrix; split <;> norm_num

lemma colSum_nonneg (n : ℕ) (E : List (ℕ × ℕ)) (j : ℕ) : 0 ≤ colSum n E j :=
  Finset.sum_nonneg fun i _ => adjMatrix_nonneg E i j

lemma transitionMatrix_nonneg (n : ℕ) (E : List (ℕ × ℕ)) (i j : ℕ) :
    0 ≤ transitionMatrix n E i j := by
  unfold transitionMatrix
  split
  · exact div_nonneg zero_le_one (Nat.cast_nonneg n)
  · exact div_nonneg (adjMatrix_nonneg E i j) (colSum_nonneg n E j)

lemma transitionMatrix_dangling (n : ℕ) (E : List (ℕ × ℕ)) (i j : ℕ)
    (h : colSum n E j = 0) : transitionMatrix n E i j = 1 / n := by
  unfold transitionMatrix; rw [if_pos h]

lemma transitionMatrix_col_sum (n : ℕ) (E : List (ℕ × ℕ)) (hn : 1 ≤ n) (j : ℕ) :
    ∑ i ∈ Finset.range n, transitionMatrix n E i j = 1 := by
  have hn0 : (n : ℚ) ≠ 0 := Nat.cast_ne_zero.mpr (by omega)
  by_cases h : colSum n E j = 0
  · simp only [transitionMatrix, if_pos h]
    rw [Finset.sum_const, Finset.card_range, nsmul_eq_mul]
    field_simp
  · simp only [transitionMatrix, if_neg h]
    rw [← Finset.sum_div]
    exact div_self h

/-! ## PageRank: iterate invariants -/

lemma prIter_nonneg (d : ℚ) (n : ℕ) (M : ℕ → ℕ → ℚ)
    (hM : ∀ i j, 0 ≤ M i j) (hd0 : 0 ≤ d) (hd1 : d ≤ 1) :
    ∀ k i, 0 ≤ prIter d n M k i := by
  intro k
  induction k with
  | zero =>
      intro i
      exact div_nonneg zero_le_one (Nat.cast_nonneg n)
  | succ k ih =>
      intro i
      show 0 ≤ prStep d n M (prIter d n M k) i
      unfold prStep
      have hsum : 0 ≤ ∑ j ∈ Finset.range n, M i j * prIter d n M k j :=
        Finset.sum_nonneg fun j _ => mul_nonneg (hM i j) (ih j)
      have hc : 0 ≤ (1 - d) / (n : ℚ) :=
        div_nonneg (by linarith) (Nat.cast_nonneg n)
      have := mul_nonneg hd0 hsum
      linarith

lemma prIter_sum (d : ℚ) (n : ℕ) (M : ℕ → ℕ → ℚ) (hn : 1 ≤ n)
    (hM : ∀ j, ∑ i ∈ Finset.range n, M i j = 1) :
    ∀ k, ∑ i ∈ Finset.range n, prIter d n M k i = 1 := by
  have hn0 : (n : ℚ) ≠ 0 := Nat.cast_ne_zero.mpr (by omega)
  intro k
  induction k with
  | zero =>
      show ∑ _i ∈ Finset.range n, (1 : ℚ) / n = 1
      rw [Finset.sum_const, Finset.card_range, nsmul_eq_mul]
      field_simp
  | succ k ih =>
      show ∑ i ∈ Finset.range n, prStep d n M (prIter d n M k) i = 1
      unfold prStep
      rw [Finset.sum_add_distrib, ← Finset.mul_sum, Finset.sum_const,
        Finset.card_range, nsmul_eq_mul, Finset.sum_comm]
      have hswap : ∑ j ∈ Finset.range n, ∑ i ∈ Finset.range n, M i j * prIter d n M k j
          = ∑ j ∈ Finset.range n, prIter d n M k j := by
        refine Finset.sum_congr rfl fun j _ => ?_
        rw [← Finset.sum_mul, hM j, one_mul]
      rw [hswap, ih, mul_one]
      field_simp

lemma prIter_lb (d : ℚ) (n : ℕ) (M : ℕ → ℕ → ℚ) (hn : 1 ≤ n)
    (hM : ∀ i j, 0 ≤ M i j) (hd0 : 0 ≤ d) (hd1 : d ≤ 1) :
    ∀ k i, (1 - d) / n ≤ prIter d n M k i := by
  have hnp : (0 : ℚ) < n := by
    have : (1 : ℚ) ≤ n := by exact_mod_cast hn
    linarith
  intro k
  induction k with
  | zero =>
      intro i
      show (1 - d) / (n : ℚ) ≤ 1 / n
      exact (div_le_div_iff_of_pos_right hnp).mpr (by linarith)
  | succ k ih =>
      intro i
      show (1 - d) / (n : ℚ) ≤ prStep d n M (prIter d n M k) i
      unfold prStep
      have hsum : 0 ≤ ∑ j ∈ Finset.range n, M i j * prIter d n M k j :=
        Finset.sum_nonneg fun j _ =>
          mul_nonneg (hM i j) (prIter_nonneg d n M hM hd0 hd1 k j)
      have := mul_nonneg hd0 hsum
      linarith

lemma prIter_isolated_lb (d : ℚ) (n : ℕ) (E : List (ℕ × ℕ)) (hn : 1 ≤ n)
    (hd0 : 0 ≤ d) (hd1 : d ≤ 1) (i0 : ℕ) (hi0 : i0 < n)
    (hcol : colSum n E i0 = 0) (k : ℕ) :
    (1 - d) / n + d * (1 / n * ((1 - d) / n)) ≤
      prIter d n (transitionMatrix n E) (k + 1) i0 := by
  have hM : ∀ i j, 0 ≤ transitionMatrix n E i j := transitionMatrix_nonneg n E
  show _ ≤ prStep d n (transitionMatrix n E) (prIter d n (transitionMatrix n E) k) i0
  unfold prStep
  have h1 : transitionMatrix n E i0 i0 * prIter d n (transitionMatrix n E) k i0 ≤
      ∑ j ∈ Finset.range n,
        transitionMatrix n E i0 j * prIter d n (transitionMatrix n E) k j :=
    Finset.single_le_sum
      (fun j _ => mul_nonneg (hM i0 j)
        (prIter_nonneg d n _ hM hd0 hd1 k j))
      (Finset.mem_range.mpr hi0)
  have h2 : 1 / (n : ℚ) * ((1 - d) / n) ≤
      transitionMatrix n E i0 i0 * prIter d n (transitionMatrix n E) k i0 := by
    rw [transitionMatrix_dangling n E i0 i0 hcol]
    exact mul_le_mul_of_nonneg_left
      (prIter_lb d n _ hn hM hd0 hd1 k i0)
      (div_nonneg zero_le_one (Nat.cast_nonneg n))
  have h3 := mul_le_mul_of_nonneg_left (le_trans h2 h1) hd0
  linarith

/-! ## PageRank: the loop realizes the first-convergence stopping rule -/

lemma prLoop_eq_iter (d θ : ℚ) (n : ℕ) (M : ℕ → ℕ → ℚ) :
    ∀ fuel k, prLoop d θ n M fuel (prIter d n M k) k =
      (prIter d n M (prStopAux d θ n M fuel k), prStopAux d θ n M fuel k) := by
  intro fuel
  induction fuel with
  | zero => intro k; rfl
  | succ f ih =>
      intro k
      simp only [prLoop, prStopAux]
      by_cases h : prDelta d n M k < θ
      · have h2 : (∑ i ∈ Finset.range n,
            |prStep d n M (prIter d n M k) i - prIter d n M k i|) < θ := h
        rw [if_pos h2, if_pos h]
        exact rfl
      · have h2 : ¬(∑ i ∈ Finset.range n,
            |prStep d n M (prIter d n M k) i - prIter d n M k i|) < θ := h
        rw [if_neg h2, if_neg h]
        exact ih (k + 1)

lemma prLoop_start (d θ : ℚ) (n : ℕ) (M : ℕ → ℕ → ℚ) (fuel : ℕ) :
    prLoop d θ n M fuel (prStart n) 0 =
      (prIter d n M (prStopAux d θ n M fuel 0), prStopAux d θ n M fuel 0) :=
  prLoop_eq_iter d θ n M fuel 0

lemma prStopAux_le (d θ : ℚ) (n : ℕ) (M : ℕ → ℕ → ℚ) :
    ∀ fuel k, prStopAux d θ n M fuel k ≤ k + fuel := by
  intro fuel
  induction fuel with
  | zero => intro k; exact Nat.le_of_eq rfl
  | succ f ih =>
      intro k
      simp only [prStopAux]
      split
      · omega
      · have := ih (k + 1); omega

lemma le_prStopAux (d θ : ℚ) (n : ℕ) (M : ℕ → ℕ → ℚ) :
    ∀ fuel k, k ≤ prStopAux d θ n M fuel k := by
  intro fuel
  induction fuel with
  | zero => intro k; exact Nat.le_of_eq rfl
  | succ f ih =>
      intro k
      simp only [prStopAux]
      split
      · omega
      · have := ih (k + 1); omega

lemma lt_prStopAux (d θ : ℚ) (n : ℕ) (M : ℕ → ℕ → ℚ) (fuel k : ℕ) (hf : 0 < fuel) :
    k < prStopAux d θ n M fuel k := by
  cases fuel with
  | zero => omega
  | succ f =>
      simp only [prStopAux]
      split
      · omega
      · have := le_prStopAux d θ n M f (k + 1); omega

lemma prStopAux_not_conv (d θ : ℚ) (n : ℕ) (M : ℕ → ℕ → ℚ) :
    ∀ fuel k j, k ≤ j → j + 1 < prStopAux d θ n M fuel k →
      ¬ prDelta d n M j < θ := by
  intro fuel
  induction fuel with
  | zero =>
      intro k j h1 h2
      rw [show prStopAux d θ n M 0 k = k from rfl] at h2
      exact absurd h2 (by omega)
  | succ f ih =>
      intro k j h1 h2
      simp only [prStopAux] at h2
      by_cases h : prDelta d n M k < θ
      · rw [if_pos h] at h2
        exact absurd h2 (by omega)
      · rw [if_neg h] at h2
        rcases eq_or_lt_of_le h1 with rfl | hlt
        · exact h
        · exact ih (k + 1) j (by omega) h2

lemma prStopAux_conv (d θ : ℚ) (n : ℕ) (M : ℕ → ℕ → ℚ) :
    ∀ fuel k, prStopAux d θ n M fuel k < k + fuel →
      prDelta d n M (prStopAux d θ n M fuel k - 1) < θ := by
  intro fuel
  induction fuel with
  | zero =>
      intro k h
      rw [show prStopAux d θ n M 0 k = k from rfl] at h
      exact absurd h (by omega)
  | succ f ih =>
      intro k h
      simp only [prStopAux] at h ⊢
      by_cases hc : prDelta d n M k < θ
      · rw [if_pos hc] at h ⊢
        simpa using hc
      · rw [if_neg hc] at h ⊢
        exact ih (k + 1) (by omega)

lemma prStopAux_mono (d : ℚ) (n : ℕ) (M : ℕ → ℕ → ℚ) (t1 t2 : ℚ) (h12 : t1 ≤ t2) :
    ∀ fuel k, prStopAux d t2 n M fuel k ≤ prStopAux d t1 n M fuel k := by
  intro fuel
  induction fuel with
  | zero => intro k; exact Nat.le_of_eq rfl
  | succ f ih =>
      intro k
      simp only [prStopAux]
      by_cases h1 : prDelta d n M k < t1
      · rw [if_pos h1, if_pos (lt_of_lt_of_le h1 h12)]
      · rw [if_neg h1]
        by_cases h2 : prDelta d n M k < t2
        · rw [if_pos h2]
          have := le_prStopAux d t1 n M f (k + 1); omega
        · rw [if_neg h2]
          exact ih (k + 1)

/-! ## PageRank: closed form of `calculate` -/

/-- The transition matrix built by `calculate` from the labelled input. -/
def prM (nodes : List String) (edges : List (String × String)) : ℕ → ℕ → ℚ :=
  transitionMatrix nodes.length (edgeIndices nodes edges)

/-- The iteration count reported by `calculate`. -/
def prIters (d θ : ℚ) (maxIter : ℕ) (nodes : List String)
    (edges : List (String × String)) : ℕ :=
  prStop d θ nodes.length (prM nodes edges) maxIter

/-- The final score vector of `calculate`: the raw iterate at the stopping
pass, rescaled once by its total. -/
def prFinal (d θ : ℚ) (maxIter : ℕ) (nodes : List String)
    (edges : List (String × String)) : ℕ → ℚ :=
  fun i =>
    prIter d nodes.length (prM nodes edges) (prIters d θ maxIter nodes edges) i /
      ∑ j ∈ Finset.range nodes.length,
        prIter d nodes.length (prM nodes edges) (prIters d θ maxIter nodes edges) j

lemma pagerankCalculate_eq_none (d θ : ℚ) (maxIter : ℕ) (nodes : List String)
    (edges : List (String × String)) (h : nodes.length = 0 ∧ 0 < maxIter) :
    pagerankCalculate d θ maxIter nodes edges = none := by
  simp only [pagerankCalculate]
  rw [if_pos h]

lemma pagerankCalculate_eq_some (d θ : ℚ) (maxIter : ℕ) (nodes : List String)
    (edges : List (String × String)) (h : ¬(nodes.length = 0 ∧ 0 < maxIter)) :
    pagerankCalculate d θ maxIter nodes edges =
      some ⟨labelScores (prFinal d θ maxIter nodes edges) nodes,
            (sortDesc (labelScores (prFinal d θ maxIter nodes edges) nodes)).take 5,
            prIters d θ maxIter nodes edges⟩ := by
  simp only [pagerankCalculate, prFinal, prIters, prStop, prM]
  rw [if_neg h, prLoop_start]
  rfl

/-! ## HITS: the loop realizes the both-deltas stopping rule -/

lemma hitsLoop_eq_iter (θ : ℝ) (n : ℕ) (E : List (ℕ × ℕ)) :
    ∀ fuel k, hitsLoop θ n E fuel (hitsIter n E k) k =
      (hitsIter n E (hitsStopAux θ n E fuel k), hitsStopAux θ n E fuel k) := by
  intro fuel
  induction fuel with
  | zero => intro k; rfl
  | succ f ih =>
      intro k
      simp only [hitsLoop, hitsStopAux]
      by_cases h : hitsConv θ n E k
      · have h2 : (hitsDelta n (hitsIter n E k) (hitsStep n E (hitsIter n E k))).1 < θ ∧
            (hitsDelta n (hitsIter n E k) (hitsStep n E (hitsIter n E k))).2 < θ := h
        rw [if_pos h2, if_pos h]
        exact rfl
      · have h2 : ¬((hitsDelta n (hitsIter n E k) (hitsStep n E (hitsIter n E k))).1 < θ ∧
            (hitsDelta n (hitsIter n E k) (hitsStep n E (hitsIter n E k))).2 < θ) := h
        rw [if_neg h2, if_neg h]
        exact ih (k + 1)

lemma hitsLoop_start (θ : ℝ) (n : ℕ) (E : List (ℕ × ℕ)) (fuel : ℕ) :
    hitsLoop θ n E fuel hitsStart 0 =
      (hitsIter n E (hitsStopAux θ n E fuel 0), hitsStopAux θ n E fuel 0) :=
  hitsLoop_eq_iter θ n E fuel 0

lemma hitsStopAux_le (θ : ℝ) (n : ℕ) (E : List (ℕ × ℕ)) :
    ∀ fuel k, hitsStopAux θ n E fuel k ≤ k + fuel := by
  intro fuel
  induction fuel with
  | zero => intro k; exact Nat.le_of_eq rfl
  | succ f ih =>
      intro k
      simp only [hitsStopAux]
      split
      · omega
      · have := ih (k + 1); omega

lemma le_hitsStopAux (θ : ℝ) (n : ℕ) (E : List (ℕ × ℕ)) :
    ∀ fuel k, k ≤ hitsStopAux θ n E fuel k := by
  intro fuel
  induction fuel with
  | zero => intro k; exact Nat.le_of_eq rfl
  | succ f ih =>
      intro k
      simp only [hitsStopAux]
      split
      · omega
      · have := ih (k + 1); omega

lemma lt_hitsStopAux (θ : ℝ) (n : ℕ) (E : List (ℕ × ℕ)) (fuel k : ℕ) (hf : 0 < fuel) :
    k < hitsStopAux θ n E fuel k := by
  cases fuel with
  | zero => omega
  | succ f =>
      simp only [hitsStopAux]
      split
      · omega
      · have := le_hitsStopAux θ n E f (k + 1); omega

lemma hitsStopAux_not_conv (θ : ℝ) (n : ℕ) (E : List (ℕ × ℕ)) :
    ∀ fuel k j, k ≤ j → j + 1 < hitsStopAux θ n E fuel k → ¬ hitsConv θ n E j := by
  intro fuel
  induction fuel with
  | zero =>
      intro k j h1 h2
      rw [show hitsStopAux θ n E 0 k = k from rfl] at h2
      exact absurd h2 (by omega)
  | succ f ih =>
      intro k j h1 h2
      simp only [hitsStopAux] at h2
      by_cases h : hitsConv θ n E k
      · rw [if_pos h] at h2
        exact absurd h2 (by omega)
      · rw [if_neg h] at h2
        rcases eq_or_lt_of_le h1 with rfl | hlt
        · exact h
        · exact ih (k + 1) j (by omega) h2

lemma hitsStopAux_conv (θ : ℝ) (n : ℕ) (E : List (ℕ × ℕ)) :
    ∀ fuel k, hitsStopAux θ n E fuel k < k + fuel →
      hitsConv θ n E (hitsStopAux θ n E fuel k - 1) := by
  intro fuel
  induction fuel with
  | zero =>
      intro k h
      rw [show hitsStopAux θ n E 0 k = k from rfl] at h
      exact absurd h (by omega)
  | succ f ih =>
      intro k h
      simp only [hitsStopAux] at h ⊢
      by_cases hc : hitsConv θ n E k
      · rw [if_pos hc] at h ⊢
        simpa using hc
      · rw [if_neg hc] at h ⊢
        exact ih (k + 1) (by omega)

lemma hitsStopAux_mono (n : ℕ) (E : List (ℕ × ℕ)) (t1 t2 : ℝ) (h12 : t1 ≤ t2) :
    ∀ fuel k, hitsStopAux t2 n E fuel k ≤ hitsStopAux t1 n E fuel k := by
  intro fuel
  induction fuel with
  | zero => intro k; exact Nat.le_of_eq rfl
  | succ f ih =>
      intro k
      simp only [hitsStopAux]
      by_cases h1 : hitsConv t1 n E k
      · rw [if_pos h1, if_pos ⟨lt_of_lt_of_le h1.1 h12, lt_of_lt_of_le h1.2 h12⟩]
      · rw [if_neg h1]
        by_cases h2 : hitsConv t2 n E k
        · rw [if_pos h2]
          have := le_hitsStopAux t1 n E f (k + 1); omega
        · rw [if_neg h2]
          exact ih (k + 1)

/-! ## HITS: closed form of `calculate` and pointwise facts -/

/-- The iteration count reported by `HITS.calculate`. -/
noncomputable def hitsIters (θ : ℚ) (maxIter : ℕ) (nodes : List String)
    (edges : List (String × String)) : ℕ :=
  hitsStop (θ : ℝ) nodes.length (edgeIndices nodes edges) maxIter

/-- The final `(authority, hub)` pair of `HITS.calculate`. -/
noncomputable def hitsFinal (θ : ℚ) (maxIter : ℕ) (nodes : List String)
    (edges : List (String × String)) : (ℕ → ℝ) × (ℕ → ℝ) :=
  hitsIter nodes.length (edgeIndices nodes edges) (hitsIters θ maxIter nodes edges)

lemma hitsCalculate_eq (θ : ℚ) (maxIter : ℕ) (nodes : List String)
    (edges : List (String × String)) :
    hitsCalculate θ maxIter nodes edges =
      ⟨labelScores (hitsFinal θ maxIter nodes edges).1 nodes,
       labelScores (hitsFinal θ maxIter nodes edges).2 nodes,
       (sortDesc (labelScores (hitsFinal θ maxIter nodes edges).1 nodes)).take 5,
       (sortDesc (labelScores (hitsFinal θ maxIter nodes edges).2 nodes)).take 5,
       hitsIters θ maxIter nodes edges⟩ := by
  simp only [hitsCalculate, hitsFinal, hitsIters, hitsStop]
  rw [hitsLoop_start]

lemma l2norm_nonneg (n : ℕ) (v : ℕ → ℝ) : 0 ≤ l2norm n v :=
  Real.sqrt_nonneg _

lemma normIf_of_norm_eq_zero (n : ℕ) (v : ℕ → ℝ) (h : l2norm n v = 0) :
    normIf n v = v := by
  unfold normIf
  rw [if_neg (by rw [h]; exact lt_irrefl 0)]

lemma l2norm_eq_zero_imp (n : ℕ) (v : ℕ → ℝ) (h : l2norm n v = 0) :
    ∀ i < n, v i = 0 := by
  intro i hi
  have hnn : 0 ≤ ∑ j ∈ Finset.range n, v j ^ 2 :=
    Finset.sum_nonneg fun j _ => sq_nonneg (v j)
  have hsum : ∑ j ∈ Finset.range n, v j ^ 2 = 0 := (Real.sqrt_eq_zero hnn).mp h
  have hterm : v i ^ 2 = 0 :=
    (Finset.sum_eq_zero_iff_of_nonneg fun j _ => sq_nonneg (v j)).mp hsum i
      (Finset.mem_range.mpr hi)
  exact sq_eq_zero_iff.mp hterm

lemma normIf_zero_at (n : ℕ) (v : ℕ → ℝ) (i : ℕ) (h : v i = 0) :
    normIf n v i = 0 := by
  unfold normIf
  by_cases hc : 0 < l2norm n v
  · rw [if_pos hc]
    simp [h]
  · rw [if_neg hc]
    exact h

lemma authRaw_eq_zero (E : List (ℕ × ℕ)) (hub : ℕ → ℝ) (i : ℕ)
    (h : ∀ p ∈ E, p.2 ≠ i) : authRaw E hub i = 0 := by
  unfold authRaw
  have hnil : E.filter (fun e => e.2 == i) = [] := by
    rw [List.filter_eq_nil_iff]
    intro p hp
    simpa using h p hp
  rw [hnil]
  rfl

lemma hubRaw_eq_zero (E : List (ℕ × ℕ)) (auth : ℕ → ℝ) (i : ℕ)
    (h : ∀ p ∈ E, p.1 ≠ i) : hubRaw E auth i = 0 := by
  unfold hubRaw
  have hnil : E.filter (fun e => e.1 == i) = [] := by
    rw [List.filter_eq_nil_iff]
    intro p hp
    simpa using h p hp
  rw [hnil]
  rfl

lemma hitsIter_isolated (n : ℕ) (E : List (ℕ × ℕ)) (i : ℕ)
    (h : ∀ p ∈ E, p.1 ≠ i ∧ p.2 ≠ i) (k : ℕ) :
    (hitsIter n E (k + 1)).1 i = 0 ∧ (hitsIter n E (k + 1)).2 i = 0 := by
  constructor
  · show (hitsStep n E (hitsIter n E k)).1 i = 0
    unfold hitsStep
    exact normIf_zero_at n _ i (authRaw_eq_zero E _ i fun p hp => (h p hp).2)
  · show (hitsStep n E (hitsIter n E k)).2 i = 0
    unfold hitsStep
    exact normIf_zero_at n _ i (hubRaw_eq_zero E _ i fun p hp => (h p hp).1)

lemma hitsConv_n0 (θ : ℝ) (hθ : 0 < θ) (E : List (ℕ × ℕ)) (k : ℕ) :
    hitsConv θ 0 E k :=
  ⟨by simpa [hitsDelta] using hθ, by simpa [hitsDelta] using hθ⟩

lemma hitsStopAux_n0 (θ : ℝ) (hθ : 0 < θ) (E : List (ℕ × ℕ)) (fuel k : ℕ)
    (hf : 0 < fuel) : hitsStopAux θ 0 E fuel k = k + 1 := by
  cases fuel with
  | zero => omega
  | succ f =>
      simp only [hitsStopAux]
      rw [if_pos (hitsConv_n0 θ hθ E k)]

lemma hitsCalculate_empty (θ : ℚ) (maxIter : ℕ) (hθ : 0 < θ) (hm : 0 < maxIter) :
    hitsCalculate θ maxIter [] [] = ⟨[], [], [], [], 1⟩ := by
  rw [hitsCalculate_eq]
  have hs : hitsIters θ maxIter [] [] = 1 := by
    unfold hitsIters hitsStop
    exact hitsStopAux_n0 (θ : ℝ) (by exact_mod_cast hθ) _ maxIter 0 hm
  simp [labelScores, sortDesc, hs]

/-! ## Further helpers for the claims -/

lemma prFinal_eq (d θ : ℚ) (maxIter : ℕ) (nodes : List String)
    (edges : List (String × String)) (hn : 1 ≤ nodes.length) :
    prFinal d θ maxIter nodes edges =
      prIter d nodes.length (prM nodes edges) (prIters d θ maxIter nodes edges) := by
  funext i
  unfold prFinal
  rw [prIter_sum d nodes.length (prM nodes edges) hn
    (fun j => transitionMatrix_col_sum nodes.length (edgeIndices nodes edges) hn j),
    div_one]

/-- A label with no incident input edge has no incident index edge either:
the index of any endpoint of a surviving edge carries a label different
from `x`. -/
lemma edgeIndices_avoid (nodes : List String) (edges : List (String × String))
    (x : String) (hiso : ∀ e ∈ edges, e.1 ≠ x ∧ e.2 ≠ x) (i : ℕ)
    (hxi : nodes[i]? = some x) :
    ∀ p ∈ edgeIndices nodes edges, p.1 ≠ i ∧ p.2 ≠ i := by
  intro p hp
  rcases mem_edgeIndices nodes edges p hp with ⟨e, he, h1, h2⟩
  constructor
  · intro hpi
    have h3 := nodeIdx_getElem nodes e.1 p.1 h1
    rw [hpi, hxi] at h3
    exact (hiso e he).1 (by injection h3 with h4; exact h4.symm)
  · intro hpi
    have h3 := nodeIdx_getElem nodes e.2 p.2 h2
    rw [hpi, hxi] at h3
    exact (hiso e he).2 (by injection h3 with h4; exact h4.symm)

/-- The PageRank score of an untouched node strictly exceeds the
teleportation floor: the dangling-uniform column feeds mass back to it. -/
lemma pr_isolated_gt (d θ : ℚ) (maxIter : ℕ) (nodes : List String)
    (edges : List (String × String)) (x : String)
    (hd0 : 0 < d) (hd1 : d < 1) (hm : 0 < maxIter)
    (hiso : ∀ e ∈ edges, e.1 ≠ x ∧ e.2 ≠ x) :
    ∀ r, pagerankCalculate d θ maxIter nodes edges = some r →
      ∀ q, (x, q) ∈ r.node_scores → (1 - d) / nodes.length < q := by
  intro r hr q hq
  by_cases hn0 : nodes.length = 0
  · rw [pagerankCalculate_eq_none d θ maxIter nodes edges ⟨hn0, hm⟩] at hr
    exact Option.noConfusion hr
  have hn : 1 ≤ nodes.length := Nat.one_le_iff_ne_zero.mpr hn0
  rw [pagerankCalculate_eq_some d θ maxIter nodes edges (fun hc => hn0 hc.1)] at hr
  cases hr
  rcases (mem_labelScores _ nodes x q).mp hq with ⟨i, hxi, hqv⟩
  have hi : i < nodes.length := by
    by_contra hge
    rw [List.getElem?_eq_none (by omega)] at hxi
    exact Option.noConfusion hxi
  have havoid := edgeIndices_avoid nodes edges x hiso i hxi
  have hcol : colSum nodes.length (edgeIndices nodes edges) i = 0 := by
    unfold colSum
    apply Finset.sum_eq_zero
    intro i2 _
    unfold adjMatrix
    rw [if_neg]
    intro hmem
    exact (havoid (i, i2) hmem).1 rfl
  rw [hqv, prFinal_eq d θ maxIter nodes edges hn]
  obtain ⟨s, hs2⟩ : ∃ s, prIters d θ maxIter nodes edges = s + 1 := by
    have h0 : 0 < prIters d θ maxIter nodes edges :=
      lt_prStopAux d θ nodes.length (prM nodes edges) maxIter 0 hm
    exact ⟨prIters d θ maxIter nodes edges - 1, by omega⟩
  rw [hs2]
  have hlow := prIter_isolated_lb d nodes.length (edgeIndices nodes edges) hn
    (le_of_lt hd0) (le_of_lt hd1) i hi hcol s
  have hnp : (0 : ℚ) < nodes.length := by exact_mod_cast hn
  have h1d : (0 : ℚ) < 1 - d := by linarith
  have hgap : 0 < d * (1 / (nodes.length : ℚ) * ((1 - d) / nodes.length)) := by
    apply mul_pos hd0
    apply mul_pos (by positivity) (by positivity)
  unfold prM
  linarith

/-- The HITS authority and hub scores of an untouched node are exactly 0
after at least one pass. -/
lemma hits_isolated_zero (θ : ℚ) (maxIter : ℕ) (nodes : List String)
    (edges : List (String × String)) (x : String)
    (hm : 0 < maxIter) (hiso : ∀ e ∈ edges, e.1 ≠ x ∧ e.2 ≠ x) :
    (∀ q, (x, q) ∈ (hitsCalculate θ maxIter nodes edges).authority_scores → q = 0) ∧
    (∀ q, (x, q) ∈ (hitsCalculate θ maxIter nodes edges).hub_scores → q = 0) := by
  rw [hitsCalculate_eq]
  obtain ⟨s, hs2⟩ : ∃ s, hitsIters θ maxIter nodes edges = s + 1 := by
    have h0 : 0 < hitsIters θ maxIter nodes edges :=
      lt_hitsStopAux (θ : ℝ) nodes.length (edgeIndices nodes edges) maxIter 0 hm
    exact ⟨hitsIters θ maxIter nodes edges - 1, by omega⟩
  constructor
  · intro q hq
    rcases (mem_labelScores _ nodes x q).mp hq with ⟨i, hxi, hqv⟩
    rw [hqv]
    show (hitsFinal θ maxIter nodes edges).1 i = 0
    unfold hitsFinal
    rw [hs2]
    exact (hitsIter_isolated nodes.length (edgeIndices nodes edges) i
      (edgeIndices_avoid nodes edges x hiso i hxi) s).1
  · intro q hq
    rcases (mem_labelScores _ nodes x q).mp hq with ⟨i, hxi, hqv⟩
    rw [hqv]
    show (hitsFinal θ maxIter nodes edges).2 i = 0
    unfold hitsFinal
    rw [hs2]
    exact (hitsIter_isolated nodes.length (edgeIndices nodes edges) i
      (edgeIndices_avoid nodes edges x hiso i hxi) s).2

/-! ## The claims -/

/-- Claim C1 (amended): on the empty graph with a positive threshold and a
positive iteration cap, PageRank's `calculate` raises `ZeroDivisionError`
(modelled as `none`) instead of returning a degenerate result, while HITS
returns empty score mappings and empty top lists without raising, but with
iteration count 1, not 0.  Only with an iteration cap of 0 do both engines
return the degenerate result with iteration count 0. -/
theorem empty_graph_results (d θ : ℚ) (maxIter : ℕ) (hθ : 0 < θ) (hm : 0 < maxIter) :
    pagerankCalculate d θ maxIter [] [] = none ∧
    hitsCalculate θ maxIter [] [] = ⟨[], [], [], [], 1⟩ ∧
    pagerankCalculate d θ 0 [] [] = some ⟨[], [], 0⟩ ∧
    (hitsCalculate θ 0 [] []).iterations = 0 ∧
    (hitsCalculate θ 0 [] []).authority_scores = [] ∧
    (hitsCalculate θ 0 [] []).hub_scores = [] ∧
    (hitsCalculate θ 0 [] []).top_authorities = [] ∧
    (hitsCalculate θ 0 [] []).top_hubs = [] := by
  refine ⟨pagerankCalculate_eq_none d θ maxIter [] [] ⟨rfl, hm⟩,
    hitsCalculate_empty θ maxIter hθ hm, ?_, ?_, ?_, ?_, ?_, ?_⟩
  · rw [pagerankCalculate_eq_some d θ 0 [] [] (by simp)]
    rfl
  · rw [hitsCalculate_eq]
    rfl
  · rw [hitsCalculate_eq]
    rfl
  · rw [hitsCalculate_eq]
    rfl
  · rw [hitsCalculate_eq]
    rfl
  · rw [hitsCalculate_eq]
    rfl

/-- Witness for C1 at the default configuration. -/
theorem empty_graph_results_witness :
    pagerankCalculate (17/20) (1/10000) 100 [] [] = none :=
  (empty_graph_results (17/20) (1/10000) 100 (by norm_num) (by norm_num)).1

/-- Counterexample to C1 as stated: with the default configuration on the
empty graph, PageRank does not return (it raises `ZeroDivisionError`), and
HITS reports iteration count 1, not 0. -/
theorem empty_graph_counterexample :
    pagerankCalculate (17/20) (1/10000) 100 [] [] = none ∧
    (hitsCalculate (1/10000) 100 [] []).iterations = 1 ∧
    (hitsCalculate (1/10000) 100 [] []).iterations ≠ 0 := by
  have h := hitsCalculate_empty (1/10000) 100 (by norm_num) (by norm_num)
  refine ⟨pagerankCalculate_eq_none (17/20) (1/10000) 100 [] [] ⟨rfl, by norm_num⟩,
    ?_, ?_⟩
  · rw [h]
  · rw [h]
    simp

/-- Claim C2 (amended): a node present in the node list but touched by no
edge gets HITS authority and hub scores exactly 0, but its PageRank score at
the stopping pass is strictly greater than the teleportation floor
`(1-d)/n` (the code's dangling-node column returns mass to the node itself),
not equal to it. -/
theorem isolated_node_scores (d θ : ℚ) (maxIter : ℕ) (nodes : List String)
    (edges : List (String × String)) (x : String)
    (hd0 : 0 < d) (hd1 : d < 1) (hm : 0 < maxIter) (hn : 2 ≤ nodes.length)
    (_hx : x ∈ nodes) (hiso : ∀ e ∈ edges, e.1 ≠ x ∧ e.2 ≠ x) :
    (pagerankCalculate d θ maxIter nodes edges).isSome = true ∧
    (∀ r, pagerankCalculate d θ maxIter nodes edges = some r →
      ∀ q, (x, q) ∈ r.node_scores → (1 - d) / nodes.length < q) ∧
    (∀ q, (x, q) ∈ (hitsCalculate θ maxIter nodes edges).authority_scores → q = 0) ∧
    (∀ q, (x, q) ∈ (hitsCalculate θ maxIter nodes edges).hub_scores → q = 0) := by
  refine ⟨?_, pr_isolated_gt d θ maxIter nodes edges x hd0 hd1 hm hiso,
    (hits_isolated_zero θ maxIter nodes edges x hm hiso).1,
    (hits_isolated_zero θ maxIter nodes edges x hm hiso).2⟩
  rw [pagerankCalculate_eq_some d θ maxIter nodes edges (by intro hc; omega)]
  rfl

/-- Witness for C2: three nodes, a two-cycle between the first two, the third
untouched. -/
theorem isolated_node_scores_witness :
    (pagerankCalculate (17/20) (1/10000) 100 ["A", "B", "C"]
      [("A", "B"), ("B", "A")]).isSome = true :=
  (isolated_node_scores (17/20) (1/10000) 100 ["A", "B", "C"]
    [("A", "B"), ("B", "A")] "C" (by norm_num) (by norm_num) (by norm_num)
    (by decide) (by decide) (by decide)).1

/-- Counterexample to C2 as stated: in the concrete three-node graph with an
untouched node `C`, the returned PageRank score of `C` is not the
teleportation floor `(1 - d)/n = 0.05`. -/
theorem isolated_node_counterexample :
    (pagerankCalculate (17/20) (1/10000) 100 ["A", "B", "C"]
        [("A", "B"), ("B", "A")]).isSome = true ∧
    (∀ r, pagerankCalculate (17/20) (1/10000) 100 ["A", "B", "C"]
        [("A", "B"), ("B", "A")] = some r →
      ∀ q, ("C", q) ∈ r.node_scores → q ≠ (1 - 17/20) / 3) := by
  constructor
  · decide
  · intro r hr q hq
    have hgt := pr_isolated_gt (17/20) (1/10000) 100 ["A", "B", "C"]
      [("A", "B"), ("B", "A")] "C" (by norm_num) (by norm_num) (by norm_num)
      (by decide) r hr q hq
    norm_num at hgt ⊢
    linarith

/-- Claim C3: for any graph with `n ≥ 1` and damping factor in `(0,1)`, every
raw PageRank iterate is entrywise non-negative and sums exactly to 1, and a
node with no outgoing index edge (zero column sum) gets the uniform column
`1/n` in the transition matrix, so its mass is redistributed rather than
lost. -/
theorem pagerank_iterates_nonneg_sum_one (d : ℚ) (nodes : List String)
    (edges : List (String × String)) (hn : 1 ≤ nodes.length)
    (hd0 : 0 < d) (hd1 : d < 1) :
    (∀ k i, 0 ≤ prIter d nodes.length (prM nodes edges) k i) ∧
    (∀ k, ∑ i ∈ Finset.range nodes.length,
        prIter d nodes.length (prM nodes edges) k i = 1) ∧
    (∀ j, colSum nodes.length (edgeIndices nodes edges) j = 0 →
      ∀ i, prM nodes edges i j = 1 / nodes.length) :=
  ⟨prIter_nonneg d nodes.length (prM nodes edges)
      (fun i j => transitionMatrix_nonneg nodes.length (edgeIndices nodes edges) i j)
      (le_of_lt hd0) (le_of_lt hd1),
   prIter_sum d nodes.length (prM nodes edges) hn
      (fun j => transitionMatrix_col_sum nodes.length (edgeIndices nodes edges) hn j),
   fun j hj i => transitionMatrix_dangling nodes.length (edgeIndices nodes edges) i j hj⟩

/-- Witness for C3 on a concrete dangling graph. -/
theorem pagerank_iterates_witness :
    ∑ i ∈ Finset.range (["A", "B"].length),
      prIter (17/20) (["A", "B"].length) (prM ["A", "B"] [("A", "B")]) 3 i = 1 :=
  (pagerank_iterates_nonneg_sum_one (17/20) ["A", "B"] [("A", "B")]
    (by decide) (by norm_num) (by norm_num)).2.1 3

/-- Claim C4: PageRank's loop stops at the first pass whose raw L1 delta is
below the threshold, or at the iteration cap, whichever comes first; the
reported count is that pass number, and the node scores are the raw stopping
iterate rescaled exactly once by its total (never rescaled inside the
loop). -/
theorem pagerank_first_convergence_stop (d θ : ℚ) (maxIter : ℕ)
    (nodes : List String) (edges : List (String × String)) (r : PageRankResult)
    (hr : pagerankCalculate d θ maxIter nodes edges = some r) :
    r.iterations ≤ maxIter ∧
    (0 < maxIter → 0 < r.iterations) ∧
    (∀ j, j + 1 < r.iterations → θ ≤ prDelta d nodes.length (prM nodes edges) j) ∧
    (r.iterations < maxIter →
      prDelta d nodes.length (prM nodes edges) (r.iterations - 1) < θ) ∧
    r.node_scores = labelScores
      (fun i => prIter d nodes.length (prM nodes edges) r.iterations i /
        ∑ j ∈ Finset.range nodes.length,
          prIter d nodes.length (prM nodes edges) r.iterations j) nodes ∧
    r.top_nodes = (sortDesc r.node_scores).take 5 := by
  have hcond : ¬(nodes.length = 0 ∧ 0 < maxIter) := by
    intro hc
    rw [pagerankCalculate_eq_none d θ maxIter nodes edges hc] at hr
    exact Option.noConfusion hr
  rw [pagerankCalculate_eq_some d θ maxIter nodes edges hcond] at hr
  cases hr
  refine ⟨?_, ?_, ?_, ?_, rfl, rfl⟩
  · have h := prStopAux_le d θ nodes.length (prM nodes edges) maxIter 0
    exact le_trans h (by omega)
  · intro h0
    exact lt_prStopAux d θ nodes.length (prM nodes edges) maxIter 0 h0
  · intro j hj
    exact le_of_not_lt
      (prStopAux_not_conv d θ nodes.length (prM nodes edges) maxIter 0 j
        (Nat.zero_le j) hj)
  · intro hlt
    have hlt2 : prStopAux d θ nodes.length (prM nodes edges) maxIter 0 < maxIter := hlt
    exact prStopAux_conv d θ nodes.length (prM nodes edges) maxIter 0 (by omega)

/-- Witness for C4 on a concrete run. -/
theorem pagerank_first_convergence_stop_witness :
    (⟨labelScores (prFinal (17/20) (1/10000) 1 ["A"] []) ["A"],
      (sortDesc (labelScores (prFinal (17/20) (1/10000) 1 ["A"] []) ["A"])).take 5,
      prIters (17/20) (1/10000) 1 ["A"] []⟩ : PageRankResult).iterations ≤ 1 :=
  (pagerank_first_convergence_stop (17/20) (1/10000) 1 ["A"] [] _
    (pagerankCalculate_eq_some (17/20) (1/10000) 1 ["A"] [] (by decide))).1

/-- Claim C5: each HITS pass computes the new authority vector from the
previous pass's hub vector and the new hub vector from the previous pass's
authority vector; each is L2-normalized unless its Euclidean norm is exactly
zero (in which case it is already the all-zero vector on the index range and
is left unchanged); the loop stops at the first pass where BOTH L1 deltas
are below the threshold, or at the cap. -/
theorem hits_iteration_policy (θ : ℚ) (maxIter : ℕ) (nodes : List String)
    (edges : List (String × String)) :
    (∀ k, hitsIter nodes.length (edgeIndices nodes edges) (k + 1) =
      (normIf nodes.length (authRaw (edgeIndices nodes edges)
          (hitsIter nodes.length (edgeIndices nodes edges) k).2),
       normIf nodes.length (hubRaw (edgeIndices nodes edges)
          (hitsIter nodes.length (edgeIndices nodes edges) k).1))) ∧
    (∀ v, l2norm nodes.length v = 0 → normIf nodes.length v = v) ∧
    (∀ v, l2norm nodes.length v = 0 → ∀ i < nodes.length, v i = 0) ∧
    (hitsCalculate θ maxIter nodes edges).iterations ≤ maxIter ∧
    (0 < maxIter → 0 < (hitsCalculate θ maxIter nodes edges).iterations) ∧
    (∀ j, j + 1 < (hitsCalculate θ maxIter nodes edges).iterations →
      ¬ hitsConv (θ : ℝ) nodes.length (edgeIndices nodes edges) j) ∧
    ((hitsCalculate θ maxIter nodes edges).iterations < maxIter →
      hitsConv (θ : ℝ) nodes.length (edgeIndices nodes edges)
        ((hitsCalculate θ maxIter nodes edges).iterations - 1)) ∧
    (hitsCalculate θ maxIter nodes edges).authority_scores =
      labelScores (hitsIter nodes.length (edgeIndices nodes edges)
        (hitsCalculate θ maxIter nodes edges).iterations).1 nodes ∧
    (hitsCalculate θ maxIter nodes edges).hub_scores =
      labelScores (hitsIter nodes.length (edgeIndices nodes edges)
        (hitsCalculate θ maxIter nodes edges).iterations).2 nodes := by
  rw [hitsCalculate_eq]
  refine ⟨fun k => rfl,
    fun v hv => normIf_of_norm_eq_zero nodes.length v hv,
    fun v hv => l2norm_eq_zero_imp nodes.length v hv,
    ?_, ?_, ?_, ?_, rfl, rfl⟩
  · have h := hitsStopAux_le (θ : ℝ) nodes.length (edgeIndices nodes edges) maxIter 0
    exact le_trans h (by omega)
  · intro h0
    exact lt_hitsStopAux (θ : ℝ) nodes.length (edgeIndices nodes edges) maxIter 0 h0
  · intro j hj
    exact hitsStopAux_not_conv (θ : ℝ) nodes.length (edgeIndices nodes edges)
      maxIter 0 j (Nat.zero_le j) hj
  · intro hlt
    have hlt2 : hitsStopAux (θ : ℝ) nodes.length (edgeIndices nodes edges) maxIter 0 <
        maxIter := hlt
    exact hitsStopAux_conv (θ : ℝ) nodes.length (edgeIndices nodes edges)
      maxIter 0 (by omega)

/-- Claim C6 (code bug evidence): with an iteration cap of 0 on the empty
graph both engines return successfully with empty top-5 lists, yet the
comparator core fails (`none`, the `IndexError` from the unguarded
`top_nodes[0]` indexing) instead of producing a well-defined result. -/
theorem compare_empty_toplist_failure :
    (pagerankCalculate (17/20) (1/10000) 0 [] []).isSome = true ∧
    pagerankCalculate (17/20) (1/10000) 0 [] [] = some ⟨[], [], 0⟩ ∧
    (hitsCalculate (1/10000) 0 [] []).top_authorities = [] ∧
    (hitsCalculate (1/10000) 0 [] []).top_hubs = [] ∧
    compareCore (17/20) (1/10000) 0 [] [] = none := by
  refine ⟨by decide, by decide, ?_, ?_, ?_⟩
  · rw [hitsCalculate_eq]
    rfl
  · rw [hitsCalculate_eq]
    rfl
  · simp only [compareCore]
    rw [show pagerankCalculate (17/20) (1/10000) 0 [] [] = some ⟨[], [], 0⟩
      from by decide]
    rw [hitsCalculate_eq]
    rfl

/-- Claim C7: edges with an unknown source or target label are silently
dropped by both engines: the index edge list and both full results coincide
with those of the induced sub-list of edges whose endpoints are both known
node labels. -/
theorem unknown_endpoints_dropped (d θ : ℚ) (maxIter : ℕ) (nodes : List String)
    (edges : List (String × String)) :
    edgeIndices nodes (edges.filter fun e => decide (e.1 ∈ nodes ∧ e.2 ∈ nodes)) =
      edgeIndices nodes edges ∧
    pagerankCalculate d θ maxIter nodes edges =
      pagerankCalculate d θ maxIter nodes
        (edges.filter fun e => decide (e.1 ∈ nodes ∧ e.2 ∈ nodes)) ∧
    hitsCalculate θ maxIter nodes edges =
      hitsCalculate θ maxIter nodes
        (edges.filter fun e => decide (e.1 ∈ nodes ∧ e.2 ∈ nodes)) := by
  refine ⟨edgeIndices_filter nodes edges, ?_, ?_⟩
  · by_cases hc : nodes.length = 0 ∧ 0 < maxIter
    · rw [pagerankCalculate_eq_none d θ maxIter nodes edges hc,
        pagerankCalculate_eq_none d θ maxIter nodes _ hc]
    · have hF : prFinal d θ maxIter nodes
          (edges.filter fun e => decide (e.1 ∈ nodes ∧ e.2 ∈ nodes)) =
          prFinal d θ maxIter nodes edges := by
        funext i
        unfold prFinal prIters prStop prM
        simp only [edgeIndices_filter nodes edges]
      rw [pagerankCalculate_eq_some d θ maxIter nodes edges hc,
        pagerankCalculate_eq_some d θ maxIter nodes _ hc, hF]
      simp only [prIters, prStop, prM, edgeIndices_filter nodes edges]
  · rw [hitsCalculate_eq, hitsCalculate_eq]
    simp only [hitsFinal, hitsIters, hitsStop, edgeIndices_filter nodes edges]

/-- Claim C8: for a fixed graph, damping factor and iteration cap, the
reported iteration count does not decrease when the convergence threshold is
tightened, for both engines. -/
theorem iterations_monotone_in_threshold (d t1 t2 : ℚ) (maxIter : ℕ)
    (nodes : List String) (edges : List (String × String)) (h12 : t1 ≤ t2) :
    (∀ r1 r2, pagerankCalculate d t1 maxIter nodes edges = some r1 →
      pagerankCalculate d t2 maxIter nodes edges = some r2 →
      r2.iterations ≤ r1.iterations) ∧
    (hitsCalculate t2 maxIter nodes edges).iterations ≤
      (hitsCalculate t1 maxIter nodes edges).iterations := by
  constructor
  · intro r1 r2 h1 h2
    have hcond : ¬(nodes.length = 0 ∧ 0 < maxIter) := by
      intro hc
      rw [pagerankCalculate_eq_none d t1 maxIter nodes edges hc] at h1
      exact Option.noConfusion h1
    rw [pagerankCalculate_eq_some d t1 maxIter nodes edges hcond] at h1
    rw [pagerankCalculate_eq_some d t2 maxIter nodes edges hcond] at h2
    cases h1
    cases h2
    exact prStopAux_mono d nodes.length (prM nodes edges) t1 t2 h12 maxIter 0
  · rw [hitsCalculate_eq, hitsCalculate_eq]
    exact hitsStopAux_mono nodes.length (edgeIndices nodes edges) (t1 : ℝ) (t2 : ℝ)
      (by exact_mod_cast h12) maxIter 0

/-- Witness for C8 with two concrete thresholds. -/
theorem iterations_monotone_witness :
    (hitsCalculate (1/10000) 100 ["A", "B"] [("A", "B")]).iterations ≤
      (hitsCalculate (1/100000) 100 ["A", "B"] [("A", "B")]).iterations :=
  (iterations_monotone_in_threshold (17/20) (1/100000) (1/10000) 100
    ["A", "B"] [("A", "B")] (by norm_num)).2

/-- Claim C9: every top-k list is the 5-element prefix of the score list
sorted descending by a stable sort: the sorted list is a permutation of the
score list, is pairwise sorted by descending score, preserves the relative
order of entries with exactly equal scores, and the underlying score list
itself carries the labels in input order. -/
theorem topk_stable_sorted (d θ : ℚ) (maxIter : ℕ) (nodes : List String)
    (edges : List (String × String)) :
    (∀ r, pagerankCalculate d θ maxIter nodes edges = some r →
      r.top_nodes = (sortDesc r.node_scores).take 5 ∧
      (sortDesc r.node_scores).Pairwise (fun p q => q.2 ≤ p.2) ∧
      List.Perm (sortDesc r.node_scores) r.node_scores ∧
      (∀ c : ℚ, (sortDesc r.node_scores).filter (fun p => decide (p.2 = c)) =
        r.node_scores.filter (fun p => decide (p.2 = c))) ∧
      r.node_scores.map Prod.fst = nodes) ∧
    ((hitsCalculate θ maxIter nodes edges).top_authorities =
      (sortDesc (hitsCalculate θ maxIter nodes edges).authority_scores).take 5 ∧
      (sortDesc (hitsCalculate θ maxIter nodes edges).authority_scores).Pairwise
        (fun p q => q.2 ≤ p.2) ∧
      List.Perm (sortDesc (hitsCalculate θ maxIter nodes edges).authority_scores)
        (hitsCalculate θ maxIter nodes edges).authority_scores ∧
      (∀ c : ℝ, (sortDesc (hitsCalculate θ maxIter nodes edges).authority_scores).filter
          (fun p => decide (p.2 = c)) =
        (hitsCalculate θ maxIter nodes edges).authority_scores.filter
          (fun p => decide (p.2 = c))) ∧
      (hitsCalculate θ maxIter nodes edges).authority_scores.map Prod.fst = nodes) ∧
    ((hitsCalculate θ maxIter nodes edges).top_hubs =
      (sortDesc (hitsCalculate θ maxIter nodes edges).hub_scores).take 5 ∧
      (sortDesc (hitsCalculate θ maxIter nodes edges).hub_scores).Pairwise
        (fun p q => q.2 ≤ p.2) ∧
      List.Perm (sortDesc (hitsCalculate θ maxIter nodes edges).hub_scores)
        (hitsCalculate θ maxIter nodes edges).hub_scores ∧
      (∀ c : ℝ, (sortDesc (hitsCalculate θ maxIter nodes edges).hub_scores).filter
          (fun p => decide (p.2 = c)) =
        (hitsCalculate θ maxIter nodes edges).hub_scores.filter
          (fun p => decide (p.2 = c))) ∧
      (hitsCalculate θ maxIter nodes edges).hub_scores.map Prod.fst = nodes) := by
  refine ⟨?_, ?_, ?_⟩
  · intro r hr
    have hcond : ¬(nodes.length = 0 ∧ 0 < maxIter) := by
      intro hc
      rw [pagerankCalculate_eq_none d θ maxIter nodes edges hc] at hr
      exact Option.noConfusion hr
    rw [pagerankCalculate_eq_some d θ maxIter nodes edges hcond] at hr
    cases hr
    exact ⟨rfl, sortDesc_pairwise _, sortDesc_perm _, fun c => sortDesc_filter ℚ _ c,
      labelScores_map_fst _ _⟩
  · rw [hitsCalculate_eq]
    exact ⟨rfl, sortDesc_pairwise _, sortDesc_perm _, fun c => sortDesc_filter ℝ _ c,
      labelScores_map_fst _ _⟩
  · rw [hitsCalculate_eq]
    exact ⟨rfl, sortDesc_pairwise _, sortDesc_perm _, fun c => sortDesc_filter ℝ _ c,
      labelScores_map_fst _ _⟩

/-- Claim C10: for unique input labels, the key lists of PageRank's
`node_scores` and HITS's `authority_scores` and `hub_scores` are exactly the
input node list (in order): every node gets a score, and no extra keys
appear. -/
theorem score_keys_equal_node_labels (d θ : ℚ) (maxIter : ℕ)
    (nodes : List String) (edges : List (String × String)) (_hnd : nodes.Nodup) :
    (∀ r, pagerankCalculate d θ maxIter nodes edges = some r →
      r.node_scores.map Prod.fst = nodes) ∧
    (hitsCalculate θ maxIter nodes edges).authority_scores.map Prod.fst = nodes ∧
    (hitsCalculate θ maxIter nodes edges).hub_scores.map Prod.fst = nodes := by
  refine ⟨?_, ?_, ?_⟩
  · intro r hr
    have hcond : ¬(nodes.length = 0 ∧ 0 < maxIter) := by
      intro hc
      rw [pagerankCalculate_eq_none d θ maxIter nodes edges hc] at hr
      exact Option.noConfusion hr
    rw [pagerankCalculate_eq_some d θ maxIter nodes edges hcond] at hr
    cases hr
    exact labelScores_map_fst _ _
  · rw [hitsCalculate_eq]
    exact labelScores_map_fst _ _
  · rw [hitsCalculate_eq]
    exact labelScores_map_fst _ _

/-- Witness for C10 on a concrete two-node graph. -/
theorem score_keys_witness :
    (hitsCalculate (1/10000) 100 ["A", "B"] [("A", "B")]).authority_scores.map
      Prod.fst = ["A", "B"] :=
  (score_keys_equal_node_labels (17/20) (1/10000) 100 ["A", "B"] [("A", "B")]
    (by decide)).2.1

end IRHits
